import Mathlib

/-!
Verification of the Salesforce REST API data fetcher (`rest-app.py`).

The development shallowly embeds the three functions of the script —
`load_auth_credentials`, `determine_record_key` and `fetch_data` — together
with the URL normalisation performed in `main`, and a model of the Python
standard-library function `urllib.parse.urljoin` (with `urlparse` /
`urlunparse`), which the script uses to resolve pagination links.

Conventions of the embedding:
* Python JSON values (the results of `json.load` / `response.json()`) are the
  inductive type `Json`; Python dicts are ordered association lists, mirroring
  the insertion-ordered iteration of Python dicts.
* Python truthiness (`if x:`) on JSON values is `jsonTruthy`.
* The HTTP layer (`requests.get`) is an oracle `server : String → HttpResponse`
  mapping a request URL to the status code and parsed JSON body of the
  response.  Headers never influence the control flow of `fetch_data`, so they
  are not part of the oracle's domain.
* The `while full_url:` loop of `fetch_data` is embedded as a fuel-indexed
  recursion `fetchLoop`; running out of fuel is the distinguished outcome
  `FetchOutcome.outOfFuel`, so every theorem about actual behaviour supplies
  enough fuel.  Besides the records, `fetchLoop` returns the list of URLs it
  requested, in order, so that request counts can be stated.
* Uncaught Python exceptions (TypeError from `list.extend` or `urljoin` on a
  non-string, AttributeError from a non-dict response body, NameError from an
  initially falsy URL) are the outcome `FetchOutcome.exn`.
-/

/-- A JSON value, as produced by Python's `json.load`.  Objects are ordered
association lists (Python dicts preserve insertion order). -/
inductive Json where
  | null : Json
  | bool : Bool → Json
  | num : Int → Json
  | str : String → Json
  | arr : List Json → Json
  | obj : List (String × Json) → Json

/-- Python truthiness of a JSON value: `None`, `False`, `0`, `''`, `[]` and
`{}` are falsy, everything else is truthy. -/
def jsonTruthy : Json → Bool
  | Json.null => false
  | Json.bool b => b
  | Json.num n => n != 0
  | Json.str s => s != ""
  | Json.arr l => !l.isEmpty
  | Json.obj l => !l.isEmpty

/-- Python `d.get(k)` without a default: `some v` when the key is present. -/
def dictGet? (d : List (String × Json)) (k : String) : Option Json :=
  (d.find? (fun p => p.1 == k)).map Prod.snd

/-- Python `d.get(k, None)` (also the value of `d.get(k)`): the stored value,
or `None` (= `Json.null`) when the key is absent. -/
def dictGet (d : List (String × Json)) (k : String) : Json :=
  (dictGet? d k).getD Json.null

/-- Python `a or b`: `a` when `a` is truthy, otherwise `b`. -/
def pyOr (a b : Json) : Json :=
  if jsonTruthy a then a else b

/-- Auxiliary for `splitOnChar`: accumulates the current chunk (reversed). -/
def splitOnCharAux (c : Char) : List Char → List Char → List (List Char)
  | [], acc => [acc.reverse]
  | x :: xs, acc =>
    if x = c then acc.reverse :: splitOnCharAux c xs []
    else splitOnCharAux c xs (x :: acc)

/-- Python `s.split(c)` for a one-character separator `c`, over char lists.
Always returns a non-empty list; `split` on the empty string gives `[""]`. -/
def splitOnChar (c : Char) (l : List Char) : List (List Char) :=
  splitOnCharAux c l []

/-- Python `sep.join(parts)` for a one-character separator, over char lists. -/
def joinChar (c : Char) : List (List Char) → List Char
  | [] => []
  | [x] => x
  | x :: y :: t => x ++ c :: joinChar c (y :: t)

/-- Python `s.split(c)` on strings (single-character separator). -/
def pySplit (c : Char) (s : String) : List String :=
  (splitOnChar c s.toList).map String.mk

/-- Function `determine_record_key` from `rest-app.py`: the last `/`-separated segment
of the endpoint path when it occurs among the keys of the response object,
otherwise the first key, and the literal `'records'` for an empty object
(`next(iter(response_json.keys()), 'records')`).  `split('/')` never returns
an empty list, so indexing with `[-1]` is total and is rendered `getLastD`. -/
def determine_record_key (endpoint_path : String) (response_json : List (String × Json)) : String :=
  let endpoint_key := (pySplit '/' endpoint_path).getLastD ""
  if (response_json.map Prod.fst).contains endpoint_key then endpoint_key
  else
    match response_json with
    | [] => "records"
    | (k, _) :: _ => k

/-- The credentials record returned by `load_auth_credentials`
(`{'access_token': ..., 'instance_url': ...}`). -/
structure AuthCredentials where
  access_token : Json
  instance_url : Json

/-- Function `load_auth_credentials` from `rest-app.py`, applied to the already parsed
JSON object of the uploaded `auth.json` file.  `Except.error` models the
raised `ValueError`. -/
def load_auth_credentials (auth_data : List (String × Json)) : Except String AuthCredentials :=
  let access_token := pyOr (dictGet auth_data "access_token") (dictGet auth_data "accessToken")
  let instance_url := pyOr (dictGet auth_data "instance_url") (dictGet auth_data "instanceUrl")
  if !(jsonTruthy access_token) || !(jsonTruthy instance_url) then
    Except.error "Missing required credentials in auth.json"
  else
    Except.ok ⟨access_token, instance_url⟩

/-- C5: with both token keys absent from the credentials object — and likewise
with both instance-URL keys absent — `load_auth_credentials` raises the
missing-credentials `ValueError` instead of returning a credentials record. -/
theorem load_auth_credentials_missing_fields (d : List (String × Json))
    (h : (dictGet? d "access_token" = none ∧ dictGet? d "accessToken" = none) ∨
         (dictGet? d "instance_url" = none ∧ dictGet? d "instanceUrl" = none)) :
    load_auth_credentials d = Except.error "Missing required credentials in auth.json" := by
  rcases h with ⟨h1, h2⟩ | ⟨h1, h2⟩ <;>
    simp [load_auth_credentials, dictGet, h1, h2, pyOr, jsonTruthy]

theorem load_auth_credentials_missing_fields_witness :
    (dictGet? [("instanceUrl", Json.str "x.example")] "access_token" = none ∧
     dictGet? [("instanceUrl", Json.str "x.example")] "accessToken" = none) ∧
    load_auth_credentials [("instanceUrl", Json.str "x.example")] =
      Except.error "Missing required credentials in auth.json" :=
  ⟨⟨rfl, rfl⟩, load_auth_credentials_missing_fields _ (Or.inl ⟨rfl, rfl⟩)⟩

/-- C9: on a credentials object carrying all four keys as strings, the
snake_case keys win when non-empty; an empty-string value falls through to the
camelCase variant, and if the camelCase token is also empty the loader errors
out exactly as if the keys were absent. -/
theorem load_auth_credentials_key_preference (t t2 i i2 : String) :
    (t ≠ "" → i ≠ "" →
      load_auth_credentials
          [("access_token", Json.str t), ("accessToken", Json.str t2),
           ("instance_url", Json.str i), ("instanceUrl", Json.str i2)] =
        Except.ok ⟨Json.str t, Json.str i⟩) ∧
    (t = "" → t2 ≠ "" → i ≠ "" →
      load_auth_credentials
          [("access_token", Json.str t), ("accessToken", Json.str t2),
           ("instance_url", Json.str i), ("instanceUrl", Json.str i2)] =
        Except.ok ⟨Json.str t2, Json.str i⟩) ∧
    (t ≠ "" → i = "" → i2 ≠ "" →
      load_auth_credentials
          [("access_token", Json.str t), ("accessToken", Json.str t2),
           ("instance_url", Json.str i), ("instanceUrl", Json.str i2)] =
        Except.ok ⟨Json.str t, Json.str i2⟩) ∧
    (t = "" → t2 = "" →
      load_auth_credentials
          [("access_token", Json.str t), ("accessToken", Json.str t2),
           ("instance_url", Json.str i), ("instanceUrl", Json.str i2)] =
        Except.error "Missing required credentials in auth.json") := by
  refine ⟨fun h1 h2 => ?_, fun h1 h2 h3 => ?_, fun h1 h2 h3 => ?_, fun h1 h2 => ?_⟩ <;>
    simp [load_auth_credentials, dictGet, dictGet?, pyOr, jsonTruthy, h1, h2] <;>
    simp_all

theorem load_auth_credentials_key_preference_witness :
    load_auth_credentials
        [("access_token", Json.str "tokA"), ("accessToken", Json.str "tokB"),
         ("instance_url", Json.str "a.example"), ("instanceUrl", Json.str "b.example")] =
      Except.ok ⟨Json.str "tokA", Json.str "a.example"⟩ ∧
    load_auth_credentials
        [("access_token", Json.str ""), ("accessToken", Json.str "tokB"),
         ("instance_url", Json.str "a.example"), ("instanceUrl", Json.str "b.example")] =
      Except.ok ⟨Json.str "tokB", Json.str "a.example"⟩ ∧
    load_auth_credentials
        [("access_token", Json.str "tokA"), ("accessToken", Json.str "tokB"),
         ("instance_url", Json.str ""), ("instanceUrl", Json.str "b.example")] =
      Except.ok ⟨Json.str "tokA", Json.str "b.example"⟩ ∧
    load_auth_credentials
        [("access_token", Json.str ""), ("accessToken", Json.str ""),
         ("instance_url", Json.str "a.example"), ("instanceUrl", Json.str "b.example")] =
      Except.error "Missing required credentials in auth.json" :=
  ⟨(load_auth_credentials_key_preference "tokA" "tokB" "a.example" "b.example").1
      (by decide) (by decide),
   (load_auth_credentials_key_preference "" "tokB" "a.example" "b.example").2.1
      rfl (by decide) (by decide),
   (load_auth_credentials_key_preference "tokA" "tokB" "" "b.example").2.2.1
      (by decide) rfl (by decide),
   (load_auth_credentials_key_preference "" "" "a.example" "b.example").2.2.2 rfl rfl⟩

/-- C4: for a non-empty response object, `determine_record_key` returns the
last `/`-separated segment of the endpoint path when that segment is a key of
the object, and the first key of the object otherwise. -/
theorem determine_record_key_spec (endpoint_path k0 : String) (v0 : Json)
    (rest : List (String × Json)) :
    ((pySplit '/' endpoint_path).getLastD "" ∈ ((k0, v0) :: rest).map Prod.fst →
      determine_record_key endpoint_path ((k0, v0) :: rest) =
        (pySplit '/' endpoint_path).getLastD "") ∧
    ((pySplit '/' endpoint_path).getLastD "" ∉ ((k0, v0) :: rest).map Prod.fst →
      determine_record_key endpoint_path ((k0, v0) :: rest) = k0) := by
  constructor <;> intro h
  · have hc : (((k0, v0) :: rest).map Prod.fst).contains
        ((pySplit '/' endpoint_path).getLastD "") = true := List.elem_eq_true_of_mem h
    simp only [determine_record_key, hc]
    rfl
  · have hc : (((k0, v0) :: rest).map Prod.fst).contains
        ((pySplit '/' endpoint_path).getLastD "") = false := by
      cases hcc : (((k0, v0) :: rest).map Prod.fst).contains
        ((pySplit '/' endpoint_path).getLastD "")
      · rfl
      · exact absurd (List.mem_of_elem_eq_true hcc) h
    simp only [determine_record_key, hc]
    rfl

theorem determine_record_key_spec_witness :
    determine_record_key "/services/data/v60.0/wave/recipes"
        [("recipes", Json.arr []), ("nextPageUrl", Json.str "/x")] = "recipes" ∧
    determine_record_key "/services/data/v60.0/wave/recipes"
        [("items", Json.arr []), ("nextPageUrl", Json.str "/x")] = "items" :=
  ⟨(determine_record_key_spec "/services/data/v60.0/wave/recipes" "recipes"
      (Json.arr []) [("nextPageUrl", Json.str "/x")]).1 (by decide),
   (determine_record_key_spec "/services/data/v60.0/wave/recipes" "items"
      (Json.arr []) [("nextPageUrl", Json.str "/x")]).2 (by decide)⟩

/-! ## Model of `urllib.parse.urljoin`

`rest-app.py` resolves the endpoint path and every pagination link with
`urljoin(instance_url, ...)`.  The functions below model CPython's
`urlsplit` / `urlunsplit` / `urljoin` for http-style URLs.  Two documented
simplifications relative to CPython: the `params` component (a `;`-suffix of
the last path segment, split off by `urlparse` but not by `urlsplit`) is left
inside the path, and the removal of ASCII tab/newline characters as well as
the IPv6 bracket validation are omitted — none of the URLs this development
reasons about contain `;`, control characters or brackets. -/

/-- Characters allowed in a URL scheme (`scheme_chars` of `urllib.parse`). -/
def schemeChar (c : Char) : Bool :=
  c.isAlpha || c.isDigit || c == '+' || c == '-' || c == '.'

/-- Characters that do not end the netloc: anything but `/`, `?` and `#`. -/
def netlocChar (c : Char) : Bool :=
  !(c == '/') && !(c == '?') && !(c == '#')

/-- Split a char list at the first occurrence of `c`; `none` if `c` is absent. -/
def splitOnFirst (c : Char) : List Char → Option (List Char × List Char)
  | [] => none
  | x :: xs =>
    if x = c then some ([], xs)
    else
      match splitOnFirst c xs with
      | some (a, b) => some (x :: a, b)
      | none => none

/-- ASCII lower-casing of a char list (`str.lower` on scheme names). -/
def lowerChars (l : List Char) : List Char :=
  l.map Char.toLower

/-- The scheme detection of `urlsplit`: a non-empty run of scheme characters
before the first `:` is the scheme; everything else leaves the URL as is. -/
def extractScheme (l : List Char) : Option (List Char × List Char) :=
  match splitOnFirst ':' l with
  | some (pre, rest) => if pre ≠ [] ∧ pre.all schemeChar then some (pre, rest) else none
  | none => none

/-- The five components returned by `urlsplit`
(scheme, netloc, path, query, fragment), as char lists. -/
structure UrlParts where
  scheme : List Char
  netloc : List Char
  path : List Char
  query : List Char
  fragment : List Char
deriving DecidableEq

/-- Model of `urllib.parse.urlsplit url, scheme=dflt`: extract the scheme (or
fall back to the default), then the `//`-delimited netloc, then split off the
fragment after `#` and the query after `?`. -/
def urlsplitCore (l : List Char) (dflt : List Char) : UrlParts :=
  let sr : List Char × List Char :=
    match extractScheme l with
    | some (sch, rest) => (lowerChars sch, rest)
    | none => (dflt, l)
  let nr : List Char × List Char :=
    if sr.2.take 2 = ['/', '/'] then
      ((sr.2.drop 2).takeWhile netlocChar, (sr.2.drop 2).dropWhile netlocChar)
    else ([], sr.2)
  let rf : List Char × List Char :=
    match splitOnFirst '#' nr.2 with
    | some (a, b) => (a, b)
    | none => (nr.2, [])
  let pq : List Char × List Char :=
    match splitOnFirst '?' rf.1 with
    | some (a, b) => (a, b)
    | none => (rf.1, [])
  ⟨sr.1, nr.1, pq.1, pq.2, rf.2⟩

/-- Model of `urllib.parse.urlunsplit`, reassembling the components. -/
def urlunsplit (p : UrlParts) : List Char :=
  let u1 : List Char :=
    if p.netloc ≠ [] ∨ (p.path ≠ [] ∧ p.path.take 2 = ['/', '/']) then
      '/' :: '/' :: p.netloc ++
        (if p.path ≠ [] ∧ p.path.take 1 ≠ ['/'] then '/' :: p.path else p.path)
    else p.path
  let u2 : List Char := if p.scheme ≠ [] then p.scheme ++ ':' :: u1 else u1
  let u3 : List Char := if p.query ≠ [] then u2 ++ '?' :: p.query else u2
  if p.fragment ≠ [] then u3 ++ '#' :: p.fragment else u3

/-- The list `uses_relative` of `urllib.parse`: schemes for which relative resolution
is performed. -/
def usesRelative (sch : List Char) : Bool :=
  ((["", "ftp", "http", "gopher", "nntp", "imap", "wais", "file", "https", "shttp",
     "mms", "prospero", "rtsp", "rtspu", "sftp", "svn", "svn+ssh", "ws", "wss"].map
      String.toList)).contains sch

/-- The list `uses_netloc` of `urllib.parse`: schemes whose URLs carry a netloc. -/
def usesNetloc (sch : List Char) : Bool :=
  ((["", "ftp", "http", "gopher", "nntp", "telnet", "imap", "wais", "file", "mms",
     "https", "shttp", "snews", "prospero", "rtsp", "rtspu", "rsync", "svn",
     "svn+ssh", "sftp", "nfs", "git", "git+ssh", "ws", "wss"].map
      String.toList)).contains sch

/-- The dot-segment resolution loop of `urljoin`: `..` pops the accumulator
(`pop` on an empty list is ignored, as by the `except IndexError: pass`),
`.` is skipped, every other segment is appended. -/
def resolveSegs (acc : List (List Char)) : List (List Char) → List (List Char)
  | [] => acc
  | seg :: rest =>
    if seg = ['.', '.'] then resolveSegs acc.dropLast rest
    else if seg = ['.'] then resolveSegs acc rest
    else resolveSegs (acc ++ [seg]) rest

/-- Python `segments[1:-1] = filter(None, segments[1:-1])`: drop empty segments from
everything except the first and the last entry. -/
def filterMiddle (l : List (List Char)) : List (List Char) :=
  match l with
  | [] => []
  | [x] => [x]
  | x :: rest => x :: ((rest.dropLast.filter (fun seg => seg ≠ [])) ++ [rest.getLastD []])

/-- The path-merging part of `urljoin`'s final branch: split the base path,
drop its last segment unless empty, combine with the URL's path (absolute
URL paths replace the base path entirely), filter empty middle segments of a
combined path, resolve `.`/`..` segments, and re-join — an empty result
becomes `/`. -/
def resolvePath (bpath upath : List Char) : List Char :=
  let baseParts0 := splitOnChar '/' bpath
  let baseParts := if baseParts0.getLastD [] ≠ [] then baseParts0.dropLast else baseParts0
  let segments :=
    if upath.take 1 = ['/'] then splitOnChar '/' upath
    else filterMiddle (baseParts ++ splitOnChar '/' upath)
  let resolved0 := resolveSegs [] segments
  let resolved :=
    if segments.getLastD [] = ['.'] ∨ segments.getLastD [] = ['.', '.'] then
      resolved0 ++ [[]]
    else resolved0
  if joinChar '/' resolved = [] then ['/'] else joinChar '/' resolved

/-- Model of the body of `urllib.parse.urljoin` for non-empty `base`/`url`,
following CPython: parse the base, parse the URL with the base's scheme as
default, return the URL alone when the schemes differ (or do not use relative
resolution), otherwise inherit the netloc and resolve the path segments. -/
def urljoinCore (bl ul : List Char) : List Char :=
  let b := urlsplitCore bl []
  let u := urlsplitCore ul b.scheme
  if u.scheme ≠ b.scheme ∨ ¬ usesRelative u.scheme then ul
  else
    let netloc := if usesNetloc u.scheme ∧ u.netloc = [] then b.netloc else u.netloc
    if usesNetloc u.scheme ∧ u.netloc ≠ [] then
      urlunsplit ⟨u.scheme, u.netloc, u.path, u.query, u.fragment⟩
    else if u.path = [] then
      urlunsplit ⟨u.scheme, netloc, b.path,
        (if u.query = [] then b.query else u.query), u.fragment⟩
    else
      urlunsplit ⟨u.scheme, netloc, resolvePath b.path u.path, u.query, u.fragment⟩

/-- Model of `urllib.parse.urljoin` on strings, including the two shortcuts
for an empty base or an empty URL. -/
def urljoin (base url : String) : String :=
  if base = "" then url
  else if url = "" then base
  else String.mk (urljoinCore base.toList url.toList)

/-- Python `str.strip()` restricted to ASCII whitespace. -/
def isPySpace (c : Char) : Bool :=
  c == ' ' || c == '\t' || c == '\n' || c == '\r' || c == '\x0b' || c == '\x0c'

/-- Python `s.strip()`: ASCII whitespace removed from both ends. -/
def pyStrip (s : String) : String :=
  String.mk (((s.toList.dropWhile isPySpace).reverse.dropWhile isPySpace).reverse)

/-- Python `s.startswith(p)` for a single prefix. -/
def startsWithStr (s p : String) : Bool :=
  p.toList.isPrefixOf s.toList

/-- The instance-URL normalisation of `main` (`rest-app.py` lines 117-121):
strip surrounding whitespace, then prepend `https://` unless the URL already
starts with `http://` or `https://`. -/
def normalize_instance_url (raw : String) : String :=
  let instance_url := pyStrip raw
  if startsWithStr instance_url "http://" || startsWithStr instance_url "https://" then
    instance_url
  else "https://" ++ instance_url

/-- The request URL formed by `main`: `urljoin(instance_url, endpoint_path)`
on the normalised instance URL. -/
def main_full_url (raw endpoint_path : String) : String :=
  urljoin (normalize_instance_url raw) endpoint_path

/-- The scheme component of a URL, as a string (`urlsplit(u).scheme`). -/
def urlScheme (u : String) : String :=
  String.mk (urlsplitCore u.toList []).scheme

/-- Sanity checks of the `urljoin` model against the behaviour of
`urllib.parse.urljoin` on representative inputs. -/
theorem urljoin_model_sanity :
    urljoin "https://h.example" "/api/x" = "https://h.example/api/x" ∧
    urljoin "https://h.example/a/b" "c/d" = "https://h.example/a/c/d" ∧
    urljoin "https://h.example/a" "ftp://e.example/x" = "ftp://e.example/x" ∧
    urljoin "https://h.example/a" "https://o.example/x" = "https://o.example/x" ∧
    urljoin "https://h.example/a/b/" "../c" = "https://h.example/a/c" ∧
    urljoin "https://h.example" "/x?page=2" = "https://h.example/x?page=2" := by
  refine ⟨by decide, by decide, by decide, by decide, by decide, by decide⟩

/-- Sanity checks of the instance-URL normalisation model. -/
theorem normalize_instance_url_sanity :
    normalize_instance_url "  h.example " = "https://h.example" ∧
    normalize_instance_url "http://h.example" = "http://h.example" := by
  refine ⟨by decide, by decide⟩

/-! ## The paginated fetch loop -/

/-- An HTTP response as `fetch_data` observes it: the status code and the
parsed JSON body (`response.json()`).  The response text only feeds the error
message shown in the UI and carries no logic, so it is omitted. -/
structure HttpResponse where
  status_code : Nat
  body : Json

/-- What a run of `fetch_data` produces.
`ok records last_response` models the normal `return all_records, last_response`;
`noneNone` models the `return None, None` taken on a non-200 status;
`exn` models an uncaught Python exception escaping `fetch_data`;
`outOfFuel` marks that the supplied fuel did not cover the iterations. -/
inductive FetchOutcome where
  | ok : List Json → Json → FetchOutcome
  | noneNone : FetchOutcome
  | exn : FetchOutcome
  | outOfFuel : FetchOutcome

/-- Python iteration over a JSON value, as consumed by `list.extend`: lists
yield their elements, strings their one-character substrings, dicts their
keys; `None`, booleans and numbers are not iterable (TypeError). -/
def pyIter : Json → Option (List Json)
  | Json.arr l => some l
  | Json.str s => some (s.toList.map (fun c => Json.str (String.mk [c])))
  | Json.obj l => some (l.map (fun p => Json.str p.1))
  | _ => none

/-- Python `last_response.get(record_key, [])` fed to `extend`: an absent key
contributes the empty list, a present value is iterated with `pyIter`. -/
def pyIterD : Option Json → Option (List Json)
  | none => some []
  | some v => pyIter v

/-- The `while full_url:` loop of `fetch_data`, one constructor-step per
iteration, with `fuel` bounding the number of iterations.  The state mirrors
the Python locals: `full_url` (a JSON value after the first reassignment from
`nextPageUrl`, initially a string), `all_records`, and `last_response`
(`none` before the first response, whence the `NameError` — `exn` — if the
loop never runs).  The second result component lists the URLs passed to
`requests.get`, in request order. -/
def fetchLoop (server : String → HttpResponse) (instance_url endpoint_path : String)
    (all_pages : Bool) :
    Nat → Json → List Json → Option Json → FetchOutcome × List String
  | 0, _, _, _ => (FetchOutcome.outOfFuel, [])
  | Nat.succ fuel, full_url, all_records, last_response? =>
    if jsonTruthy full_url then
      match full_url with
      | Json.str u =>
        let response := server u
        if response.status_code ≠ 200 then (FetchOutcome.noneNone, [u])
        else
          match response.body with
          | Json.obj items =>
            let record_key := determine_record_key endpoint_path items
            match pyIterD (dictGet? items record_key) with
            | some recs =>
              if all_pages then
                let nxt := dictGet items "nextPageUrl"
                if jsonTruthy nxt then
                  match nxt with
                  | Json.str s =>
                    let r := fetchLoop server instance_url endpoint_path all_pages fuel
                      (Json.str (urljoin instance_url s)) (all_records ++ recs)
                      (some (Json.obj items))
                    (r.1, u :: r.2)
                  | _ => (FetchOutcome.exn, [u])
                else
                  let r := fetchLoop server instance_url endpoint_path all_pages fuel
                    nxt (all_records ++ recs) (some (Json.obj items))
                  (r.1, u :: r.2)
              else (FetchOutcome.ok (all_records ++ recs) (Json.obj items), [u])
            | none => (FetchOutcome.exn, [u])
          | _ => (FetchOutcome.exn, [u])
      | _ => (FetchOutcome.exn, [])
    else
      match last_response? with
      | some lr => (FetchOutcome.ok all_records lr, [])
      | none => (FetchOutcome.exn, [])

/-- Function `fetch_data` from `rest-app.py`: run the loop from the given full URL with
an empty record list and no previous response. -/
def fetch_data (server : String → HttpResponse) (full_url : String)
    (instance_url endpoint_path : String) (all_pages : Bool) (fuel : Nat) :
    FetchOutcome × List String :=
  fetchLoop server instance_url endpoint_path all_pages fuel (Json.str full_url) [] none

/-- The records a page contributes: the value under the inferred record key,
iterated; empty when the key is absent. -/
def recordsOf (endpoint_path : String) (b : List (String × Json)) : List Json :=
  (pyIterD (dictGet? b (determine_record_key endpoint_path b))).getD []

/-- The page is well-formed for record extraction: `extend` does not raise
on the value under the inferred record key. -/
def goodPage (endpoint_path : String) (b : List (String × Json)) : Prop :=
  ∃ l, pyIterD (dictGet? b (determine_record_key endpoint_path b)) = some l

/-- A complete pagination chain starting at a URL: every page responds with
status 200 and a JSON object that extracts cleanly; every page except the
last carries a non-empty string `nextPageUrl` leading (via `urljoin` against
the instance URL) to the next page, and the last page carries none. -/
def isChain (server : String → HttpResponse) (instance_url endpoint_path : String) :
    String → List (List (String × Json)) → Prop
  | _, [] => True
  | u, [b] =>
    u ≠ "" ∧ server u = ⟨200, Json.obj b⟩ ∧ goodPage endpoint_path b ∧
      dictGet? b "nextPageUrl" = none
  | u, b :: b2 :: rest =>
    u ≠ "" ∧ server u = ⟨200, Json.obj b⟩ ∧ goodPage endpoint_path b ∧
      ∃ s, dictGet? b "nextPageUrl" = some (Json.str s) ∧ s ≠ "" ∧
        isChain server instance_url endpoint_path (urljoin instance_url s) (b2 :: rest)

/-- A pagination chain that leads to a failing URL: every listed page is a
good 200 page with a non-empty string `nextPageUrl`, and following the links
ends at `ubad`. -/
def isChainTo (server : String → HttpResponse) (instance_url endpoint_path : String) :
    String → List (List (String × Json)) → String → Prop
  | u, [], ubad => u = ubad
  | u, b :: rest, ubad =>
    u ≠ "" ∧ server u = ⟨200, Json.obj b⟩ ∧ goodPage endpoint_path b ∧
      ∃ s, dictGet? b "nextPageUrl" = some (Json.str s) ∧ s ≠ "" ∧
        isChainTo server instance_url endpoint_path (urljoin instance_url s) rest ubad

/-! ## Loop lemmas -/

/-- Running a complete chain: the loop returns all records of the chain, in
page order, appended to the accumulator, together with the last page's body,
and requests exactly one URL per page. -/
theorem fetchLoop_isChain (server : String → HttpResponse) (instance_url endpoint_path : String)
    (bs : List (List (String × Json))) :
    ∀ (u : String) (acc : List Json) (lr : Option Json) (fuel : Nat),
      isChain server instance_url endpoint_path u bs → bs ≠ [] →
      bs.length + 1 ≤ fuel →
      ∃ t, fetchLoop server instance_url endpoint_path true fuel (Json.str u) acc lr =
             (FetchOutcome.ok (acc ++ bs.flatMap (recordsOf endpoint_path))
               (Json.obj (bs.getLastD [])), t) ∧ t.length = bs.length := by
  induction bs with
  | nil => intro u acc lr fuel h hne; exact absurd rfl hne
  | cons b rest ih =>
    intro u acc lr fuel h _ hfuel
    cases rest with
    | nil =>
      obtain ⟨hu, hs, ⟨l, hl⟩, hn⟩ := h
      have hf2 : 2 ≤ fuel := by simpa using hfuel
      obtain ⟨f, rfl⟩ : ∃ f, fuel = Nat.succ (Nat.succ f) := ⟨fuel - 2, by omega⟩
      have htu : jsonTruthy (Json.str u) = true := by simp [jsonTruthy, hu]
      have hnull : jsonTruthy Json.null = false := rfl
      refine ⟨[u], ?_, rfl⟩
      simp [fetchLoop, htu, hnull, hs, hl, dictGet, hn, recordsOf]
    | cons b2 rest' =>
      obtain ⟨hu, hs, ⟨l, hl⟩, s, hnx, hsne, hrest⟩ := h
      have hf1 : 1 ≤ fuel := by simp at hfuel; omega
      obtain ⟨f, rfl⟩ : ∃ f, fuel = Nat.succ f := ⟨fuel - 1, by omega⟩
      have htu : jsonTruthy (Json.str u) = true := by simp [jsonTruthy, hu]
      have hts : jsonTruthy (Json.str s) = true := by simp [jsonTruthy, hsne]
      obtain ⟨t', ht', hlen⟩ :=
        ih (urljoin instance_url s) (acc ++ l) (some (Json.obj b)) f hrest
          (List.cons_ne_nil _ _) (by simp at hfuel ⊢; omega)
      refine ⟨u :: t', ?_, by simp [hlen]⟩
      simp [fetchLoop, htu, hs, hl, dictGet, hnx, hts, ht', recordsOf,
        List.getLastD_cons]

/-- Running a chain that ends at a URL whose response is not 200: the loop
returns the `(None, None)` outcome, after one request per good page plus the
failing one. -/
theorem fetchLoop_isChainTo (server : String → HttpResponse) (instance_url endpoint_path : String)
    (bs : List (List (String × Json))) :
    ∀ (u ubad : String) (acc : List Json) (lr : Option Json) (fuel : Nat),
      isChainTo server instance_url endpoint_path u bs ubad → ubad ≠ "" →
      (server ubad).status_code ≠ 200 →
      bs.length + 1 ≤ fuel →
      ∃ t, fetchLoop server instance_url endpoint_path true fuel (Json.str u) acc lr =
             (FetchOutcome.noneNone, t) ∧ t.length = bs.length + 1 := by
  induction bs with
  | nil =>
    intro u ubad acc lr fuel h hub hbad hfuel
    cases h
    obtain ⟨f, rfl⟩ : ∃ f, fuel = Nat.succ f := ⟨fuel - 1, by omega⟩
    have htu : jsonTruthy (Json.str u) = true := by simp [jsonTruthy, hub]
    refine ⟨[u], ?_, rfl⟩
    simp [fetchLoop, htu, hbad]
  | cons b rest ih =>
    intro u ubad acc lr fuel h hub hbad hfuel
    obtain ⟨hu, hs, ⟨l, hl⟩, s, hnx, hsne, hrest⟩ := h
    have hf1 : 1 ≤ fuel := by omega
    obtain ⟨f, rfl⟩ : ∃ f, fuel = Nat.succ f := ⟨fuel - 1, by omega⟩
    have htu : jsonTruthy (Json.str u) = true := by simp [jsonTruthy, hu]
    have hts : jsonTruthy (Json.str s) = true := by simp [jsonTruthy, hsne]
    obtain ⟨t', ht', hlen⟩ :=
      ih (urljoin instance_url s) ubad (acc ++ l) (some (Json.obj b)) f hrest hub hbad
        (by simp at hfuel ⊢; omega)
    refine ⟨u :: t', ?_, by simp [hlen]⟩
    simp [fetchLoop, htu, hs, hl, dictGet, hnx, hts, ht']

/-- Whenever the loop starts at a truthy string URL with fuel left, that URL
is the first one requested. -/
theorem fetchLoop_trace_head (server : String → HttpResponse) (instance_url endpoint_path : String)
    (all_pages : Bool) (fuel : Nat) (u : String) (acc : List Json) (lr : Option Json)
    (hu : u ≠ "") :
    ∃ t, (fetchLoop server instance_url endpoint_path all_pages (Nat.succ fuel)
            (Json.str u) acc lr).2 = u :: t := by
  have htu : jsonTruthy (Json.str u) = true := by simp [jsonTruthy, hu]
  simp only [fetchLoop, htu, if_true]
  repeat' split
  all_goals exact ⟨_, rfl⟩

/-- With the multi-page option off, the loop body never recurses, so any
positive amount of fuel computes the same result. -/
theorem fetchLoop_single_fuel (server : String → HttpResponse) (instance_url endpoint_path : String)
    (fuel : Nat) (full_url : Json) (acc : List Json) (lr : Option Json) :
    fetchLoop server instance_url endpoint_path false (Nat.succ fuel) full_url acc lr =
      fetchLoop server instance_url endpoint_path false 1 full_url acc lr := by
  simp [fetchLoop]

/-- C2: on a chain of `N ≥ 1` pages, each status 200, every page but the last
carrying a `nextPageUrl` and the last carrying none, `fetch_data` with the
all-pages flag performs exactly `N` requests and returns the records of all
pages concatenated in page order, with the last page as final response. -/
theorem fetch_data_chain (server : String → HttpResponse)
    (u0 instance_url endpoint_path : String) (bs : List (List (String × Json))) (fuel : Nat)
    (hch : isChain server instance_url endpoint_path u0 bs) (hne : bs ≠ [])
    (hfuel : bs.length + 1 ≤ fuel) :
    (fetch_data server u0 instance_url endpoint_path true fuel).1 =
      FetchOutcome.ok (bs.flatMap (recordsOf endpoint_path)) (Json.obj (bs.getLastD [])) ∧
    (fetch_data server u0 instance_url endpoint_path true fuel).2.length = bs.length := by
  obtain ⟨t, ht, hlen⟩ :=
    fetchLoop_isChain server instance_url endpoint_path bs u0 [] none fuel hch hne hfuel
  rw [fetch_data, ht]
  exact ⟨by simp, hlen⟩

/-- C1: if following the chain reaches a page whose HTTP status is not 200,
`fetch_data` returns the `(None, None)` outcome — every record gathered from
the earlier pages is discarded — after having requested each of the `k`
pages exactly once. -/
theorem fetch_data_non200_discards (server : String → HttpResponse)
    (u0 ubad instance_url endpoint_path : String) (bs : List (List (String × Json))) (fuel : Nat)
    (hch : isChainTo server instance_url endpoint_path u0 bs ubad) (hub : ubad ≠ "")
    (hbad : (server ubad).status_code ≠ 200) (hfuel : bs.length + 1 ≤ fuel) :
    (fetch_data server u0 instance_url endpoint_path true fuel).1 = FetchOutcome.noneNone ∧
    (fetch_data server u0 instance_url endpoint_path true fuel).2.length = bs.length + 1 := by
  obtain ⟨t, ht, hlen⟩ :=
    fetchLoop_isChainTo server instance_url endpoint_path bs u0 ubad [] none fuel hch hub hbad hfuel
  rw [fetch_data, ht]
  exact ⟨rfl, hlen⟩

/-- C3: a single 200 page without `nextPageUrl` is fetched with exactly one
request, whatever the value of the all-pages flag. -/
theorem fetch_data_single_page (server : String → HttpResponse)
    (u instance_url endpoint_path : String) (b : List (String × Json)) (fuel : Nat)
    (hu : u ≠ "") (hs : server u = ⟨200, Json.obj b⟩)
    (hg : goodPage endpoint_path b) (hn : dictGet? b "nextPageUrl" = none) :
    ∀ all_pages : Bool,
      fetch_data server u instance_url endpoint_path all_pages (fuel + 2) =
        (FetchOutcome.ok (recordsOf endpoint_path b) (Json.obj b), [u]) := by
  intro all_pages
  obtain ⟨l, hl⟩ := hg
  have htu : jsonTruthy (Json.str u) = true := by simp [jsonTruthy, hu]
  have hnull : jsonTruthy Json.null = false := rfl
  show fetchLoop server instance_url endpoint_path all_pages (Nat.succ (Nat.succ fuel))
      (Json.str u) [] none = _
  cases all_pages with
  | false => simp [fetchLoop, htu, hs, hl, recordsOf]
  | true => simp [fetchLoop, htu, hnull, hs, hl, dictGet, hn, recordsOf]

/-- C7: on any finite chain whose last page lacks a next-page link the loop
terminates: every sufficient fuel yields the same completed result — never
the out-of-fuel marker — after exactly one request per page; and with the
all-pages flag off, the loop finishes within a single iteration regardless
of fuel. -/
theorem fetch_data_terminates (server : String → HttpResponse)
    (u0 instance_url endpoint_path : String) (bs : List (List (String × Json))) (fuel : Nat)
    (hch : isChain server instance_url endpoint_path u0 bs) (hne : bs ≠ [])
    (hfuel : bs.length + 1 ≤ fuel) :
    ((fetch_data server u0 instance_url endpoint_path true fuel).1 =
        FetchOutcome.ok (bs.flatMap (recordsOf endpoint_path)) (Json.obj (bs.getLastD [])) ∧
      (fetch_data server u0 instance_url endpoint_path true fuel).1 ≠ FetchOutcome.outOfFuel ∧
      (fetch_data server u0 instance_url endpoint_path true fuel).2.length = bs.length) ∧
    (∀ (u : String) (fuel' : Nat),
      fetch_data server u instance_url endpoint_path false (Nat.succ fuel') =
        fetch_data server u instance_url endpoint_path false 1) := by
  obtain ⟨t, ht, hlen⟩ :=
    fetchLoop_isChain server instance_url endpoint_path bs u0 [] none fuel hch hne hfuel
  refine ⟨⟨?_, ?_, ?_⟩, ?_⟩
  · rw [fetch_data, ht]; simp
  · rw [fetch_data, ht]; simp
  · rw [fetch_data, ht]; exact hlen
  · intro u fuel'
    exact fetchLoop_single_fuel server instance_url endpoint_path fuel' (Json.str u) [] none

/-- C8: an empty-object page makes `determine_record_key` fall back to the
literal `'records'` rather than erroring, and since that key is absent the
page contributes nothing: the loop finishes normally with the aggregate
unchanged. -/
theorem fetch_empty_object_page (server : String → HttpResponse)
    (u instance_url endpoint_path : String) (acc : List Json) (lr : Option Json) (fuel : Nat)
    (hu : u ≠ "") (hs : server u = ⟨200, Json.obj []⟩) :
    determine_record_key endpoint_path [] = "records" ∧
    fetchLoop server instance_url endpoint_path true (fuel + 2) (Json.str u) acc lr =
      (FetchOutcome.ok acc (Json.obj []), [u]) := by
  have htu : jsonTruthy (Json.str u) = true := by simp [jsonTruthy, hu]
  have hnull : jsonTruthy Json.null = false := rfl
  constructor
  · rfl
  · show fetchLoop server instance_url endpoint_path true (Nat.succ (Nat.succ fuel))
        (Json.str u) acc lr = _
    simp [fetchLoop, htu, hnull, hs, dictGet, dictGet?, pyIterD]

/-! ## Concrete instances used by the witnesses -/

/-- First demo page: two records and a relative next-page link. -/
def pageOne : List (String × Json) :=
  [("items", Json.arr [Json.str "a", Json.str "b"]), ("nextPageUrl", Json.str "/api/items2")]

/-- Second demo page: one record, no next-page link. -/
def pageTwo : List (String × Json) :=
  [("items", Json.arr [Json.str "c"])]

/-- A demo page whose next-page link leads to a failing URL. -/
def pageFail : List (String × Json) :=
  [("items", Json.arr [Json.str "x"]), ("nextPageUrl", Json.str "/api/bad")]

/-- A deterministic HTTP oracle serving the demo pages. -/
def demoServer : String → HttpResponse := fun u =>
  if u = "https://h.example/api/items" then ⟨200, Json.obj pageOne⟩
  else if u = "https://h.example/api/items2" then ⟨200, Json.obj pageTwo⟩
  else if u = "https://h.example/api/fail1" then ⟨200, Json.obj pageFail⟩
  else if u = "https://h.example/api/bad" then ⟨500, Json.str "Server Error"⟩
  else if u = "https://h.example/api/empty" then ⟨200, Json.obj []⟩
  else ⟨404, Json.null⟩

theorem fetch_data_chain_witness :
    (fetch_data demoServer "https://h.example/api/items" "https://h.example" "/api/items"
        true 3).1 =
      FetchOutcome.ok [Json.str "a", Json.str "b", Json.str "c"] (Json.obj pageTwo) ∧
    (fetch_data demoServer "https://h.example/api/items" "https://h.example" "/api/items"
        true 3).2.length = 2 := by
  have h := fetch_data_chain demoServer "https://h.example/api/items" "https://h.example"
    "/api/items" [pageOne, pageTwo] 3
    ⟨by decide, rfl, ⟨[Json.str "a", Json.str "b"], rfl⟩,
      "/api/items2", rfl, by decide, by decide, rfl,
      ⟨[Json.str "c"], rfl⟩, rfl⟩
    (List.cons_ne_nil _ _) (by decide)
  exact ⟨h.1.trans rfl, h.2⟩

theorem fetch_data_non200_discards_witness :
    (fetch_data demoServer "https://h.example/api/fail1" "https://h.example" "/api/items"
        true 2).1 = FetchOutcome.noneNone ∧
    (fetch_data demoServer "https://h.example/api/fail1" "https://h.example" "/api/items"
        true 2).2.length = 2 := by
  have h := fetch_data_non200_discards demoServer "https://h.example/api/fail1"
    "https://h.example/api/bad" "https://h.example" "/api/items" [pageFail] 2
    ⟨by decide, rfl, ⟨[Json.str "x"], rfl⟩, "/api/bad", rfl, by decide,
      show urljoin "https://h.example" "/api/bad" = "https://h.example/api/bad" by decide⟩
    (by decide) (by decide) (by decide)
  exact ⟨h.1, h.2⟩

theorem fetch_data_single_page_witness :
    fetch_data demoServer "https://h.example/api/items2" "https://h.example" "/api/items"
        true 2 =
      (FetchOutcome.ok [Json.str "c"] (Json.obj pageTwo), ["https://h.example/api/items2"]) ∧
    fetch_data demoServer "https://h.example/api/items2" "https://h.example" "/api/items"
        false 2 =
      (FetchOutcome.ok [Json.str "c"] (Json.obj pageTwo), ["https://h.example/api/items2"]) := by
  have h := fetch_data_single_page demoServer "https://h.example/api/items2" "https://h.example"
    "/api/items" pageTwo 0 (by decide) rfl ⟨[Json.str "c"], rfl⟩ rfl
  exact ⟨(h true).trans rfl, (h false).trans rfl⟩

theorem fetch_data_terminates_witness :
    (fetch_data demoServer "https://h.example/api/items" "https://h.example" "/api/items"
        true 5).1 =
      FetchOutcome.ok [Json.str "a", Json.str "b", Json.str "c"] (Json.obj pageTwo) ∧
    (fetch_data demoServer "https://h.example/api/items" "https://h.example" "/api/items"
        true 5).1 ≠ FetchOutcome.outOfFuel ∧
    (fetch_data demoServer "https://h.example/api/items" "https://h.example" "/api/items"
        true 5).2.length = 2 ∧
    fetch_data demoServer "https://h.example/api/items" "https://h.example" "/api/items"
        false 7 =
      fetch_data demoServer "https://h.example/api/items" "https://h.example" "/api/items"
        false 1 := by
  have h := fetch_data_terminates demoServer "https://h.example/api/items" "https://h.example"
    "/api/items" [pageOne, pageTwo] 5
    ⟨by decide, rfl, ⟨[Json.str "a", Json.str "b"], rfl⟩,
      "/api/items2", rfl, by decide, by decide, rfl,
      ⟨[Json.str "c"], rfl⟩, rfl⟩
    (List.cons_ne_nil _ _) (by decide)
  exact ⟨h.1.1.trans rfl, h.1.2.1, h.1.2.2, h.2 "https://h.example/api/items" 6⟩

theorem fetch_empty_object_page_witness :
    determine_record_key "/api/items" [] = "records" ∧
    fetchLoop demoServer "https://h.example" "/api/items" true 2
        (Json.str "https://h.example/api/empty") [Json.str "z"] none =
      (FetchOutcome.ok [Json.str "z"] (Json.obj []), ["https://h.example/api/empty"]) :=
  fetch_empty_object_page demoServer "https://h.example/api/empty" "https://h.example"
    "/api/items" [Json.str "z"] none 0 (by decide) rfl

/-! ## List-level lemmas about the URL parsing primitives -/

theorem splitOnFirst_of_not_mem {c : Char} {l : List Char} (h : c ∉ l) :
    splitOnFirst c l = none := by
  induction l with
  | nil => rfl
  | cons x xs ih =>
    simp only [List.mem_cons, not_or] at h
    simp [splitOnFirst, Ne.symm h.1, ih h.2]

theorem splitOnFirst_append {c : Char} {a : List Char} (b : List Char) (h : c ∉ a) :
    splitOnFirst c (a ++ c :: b) = some (a, b) := by
  induction a with
  | nil => simp [splitOnFirst]
  | cons x xs ih =>
    simp only [List.mem_cons, not_or] at h
    simp [splitOnFirst, Ne.symm h.1, ih h.2]

theorem splitOnFirst_eq_some {c : Char} {l a b : List Char}
    (h : splitOnFirst c l = some (a, b)) : l = a ++ c :: b ∧ c ∉ a := by
  induction l generalizing a with
  | nil => simp [splitOnFirst] at h
  | cons x xs ih =>
    by_cases hx : x = c
    · subst hx
      simp [splitOnFirst] at h
      obtain ⟨rfl, rfl⟩ := h
      simp
    · simp only [splitOnFirst, if_neg hx] at h
      cases hsp : splitOnFirst c xs with
      | none => rw [hsp] at h; simp at h
      | some ab =>
        rw [hsp] at h
        obtain ⟨a', b'⟩ := ab
        simp at h
        obtain ⟨rfl, rfl⟩ := h
        obtain ⟨h1, h2⟩ := ih hsp
        subst h1
        simp [hx, h2]
        exact fun hc => hx (hc.symm)

theorem splitOnCharAux_ne_nil (c : Char) (l acc : List Char) :
    splitOnCharAux c l acc ≠ [] := by
  induction l generalizing acc with
  | nil => simp [splitOnCharAux]
  | cons x xs ih =>
    by_cases hx : x = c <;> simp [splitOnCharAux, hx, ih]

theorem joinChar_splitOnCharAux (c : Char) (l : List Char) :
    ∀ acc, joinChar c (splitOnCharAux c l acc) = acc.reverse ++ l := by
  induction l with
  | nil => intro acc; simp [splitOnCharAux, joinChar]
  | cons x xs ih =>
    intro acc
    by_cases hx : x = c
    · subst hx
      rw [splitOnCharAux, if_pos rfl]
      cases hsp : splitOnCharAux x xs [] with
      | nil => exact absurd hsp (splitOnCharAux_ne_nil x xs [])
      | cons y ys =>
        rw [joinChar]
        rw [← hsp, ih []]
        simp
    · rw [splitOnCharAux, if_neg hx, ih (x :: acc)]
      simp

theorem joinChar_splitOnChar (c : Char) (l : List Char) :
    joinChar c (splitOnChar c l) = l := by
  simpa using joinChar_splitOnCharAux c l []

theorem resolveSegs_no_dots {segs : List (List Char)}
    (h : ∀ seg ∈ segs, seg ≠ ['.'] ∧ seg ≠ ['.', '.']) :
    ∀ acc, resolveSegs acc segs = acc ++ segs := by
  induction segs with
  | nil => intro acc; simp [resolveSegs]
  | cons seg rest ih =>
    intro acc
    obtain ⟨h1, h2⟩ := h seg (by simp)
    rw [resolveSegs, if_neg h2, if_neg h1,
      ih (fun s hs => h s (List.mem_cons_of_mem _ hs)) (acc ++ [seg])]
    simp

theorem getLastD_mem_of_ne_nil {α : Type} {l : List α} (d : α) (h : l ≠ []) :
    l.getLastD d ∈ l := by
  cases l with
  | nil => exact absurd rfl h
  | cons x xs =>
    rw [List.getLastD_cons]
    induction xs generalizing x with
    | nil => simp [List.getLastD]
    | cons y ys ih =>
      rw [List.getLastD_cons]
      exact List.mem_cons_of_mem _ (ih y (List.cons_ne_nil _ _))

theorem dropWhile_head_false {p : Char → Bool} {l t : List Char} {c : Char}
    (h : l.dropWhile p = c :: t) : p c = false := by
  induction l with
  | nil => simp at h
  | cons x xs ih =>
    by_cases hx : p x
    · rw [List.dropWhile_cons, if_pos hx] at h
      exact ih h
    · rw [List.dropWhile_cons, if_neg hx] at h
      cases h
      simpa using hx

/-! ## Parsing lemmas for the urljoin model -/

theorem extractScheme_append (sch r : List Char) (hne : sch ≠ [])
    (hv : sch.all schemeChar = true) (hc : ':' ∉ sch) :
    extractScheme (sch ++ ':' :: r) = some (sch, r) := by
  simp [extractScheme, splitOnFirst_append r hc, hne, hv]

theorem extractScheme_none_of_no_colon (l : List Char) (h : ':' ∉ l) :
    extractScheme l = none := by
  simp [extractScheme, splitOnFirst_of_not_mem h]

theorem urlsplitCore_scheme_default (l d : List Char) (h : extractScheme l = none) :
    (urlsplitCore l d).scheme = d := by
  simp [urlsplitCore, h]

theorem urlsplitCore_scheme_colon (sch t d : List Char)
    (hsch : sch = "http".toList ∨ sch = "https".toList) :
    (urlsplitCore (sch ++ ':' :: t) d).scheme = sch := by
  have hne : sch ≠ [] := by rcases hsch with rfl | rfl <;> decide
  have hv : sch.all schemeChar = true := by rcases hsch with rfl | rfl <;> decide
  have hc : ':' ∉ sch := by rcases hsch with rfl | rfl <;> decide
  have hl : lowerChars sch = sch := by rcases hsch with rfl | rfl <;> decide
  simp [urlsplitCore, extractScheme_append sch t hne hv hc, hl]

theorem urlsplitCore_schemeHost (sch host : List Char)
    (hsch : sch = "http".toList ∨ sch = "https".toList)
    (hhost : ∀ c ∈ host, netlocChar c = true) :
    urlsplitCore (sch ++ ':' :: '/' :: '/' :: host) [] = ⟨sch, host, [], [], []⟩ := by
  have hne : sch ≠ [] := by rcases hsch with rfl | rfl <;> decide
  have hv : sch.all schemeChar = true := by rcases hsch with rfl | rfl <;> decide
  have hc : ':' ∉ sch := by rcases hsch with rfl | rfl <;> decide
  have hl : lowerChars sch = sch := by rcases hsch with rfl | rfl <;> decide
  have htw : host.takeWhile netlocChar = host := List.takeWhile_eq_self_iff.mpr hhost
  have hdw : host.dropWhile netlocChar = [] := List.dropWhile_eq_nil_iff.mpr hhost
  simp [urlsplitCore, extractScheme_append sch _ hne hv hc, hl, htw, hdw, splitOnFirst]

theorem urlsplitCore_rooted (r d : List Char)
    (hnc : ∀ c ∈ ('/' :: r), c ≠ ':' ∧ c ≠ '?' ∧ c ≠ '#')
    (hr : r.take 1 ≠ ['/']) :
    urlsplitCore ('/' :: r) d = ⟨d, [], '/' :: r, [], []⟩ := by
  have h1 : ':' ∉ '/' :: r := fun hm => ((hnc _ hm).1 rfl)
  have h2 : '#' ∉ '/' :: r := fun hm => ((hnc _ hm).2.2 rfl)
  have h3 : '?' ∉ '/' :: r := fun hm => ((hnc _ hm).2.1 rfl)
  have he : extractScheme ('/' :: r) = none := extractScheme_none_of_no_colon _ h1
  simp [urlsplitCore, he, hr, splitOnFirst_of_not_mem h2, splitOnFirst_of_not_mem h3]

theorem urlunsplit_scheme_colon (p : UrlParts) (hne : p.scheme ≠ []) :
    ∃ y, urlunsplit p = p.scheme ++ ':' :: y := by
  obtain ⟨sch, n, pa, q, f⟩ := p
  simp only at hne
  have key : ∀ (x b : List Char), ∃ y, (sch ++ ':' :: x) ++ b = sch ++ ':' :: y :=
    fun x b => ⟨x ++ b, by simp⟩
  simp only [urlunsplit, hne, if_true]
  repeat' split
  all_goals first
    | exact ⟨_, rfl⟩
    | exact key _ _
    | (rw [List.append_assoc]; exact key _ _)

theorem urlsplit_unsplit_scheme (p : UrlParts) (d : List Char)
    (hp : p.scheme = "http".toList ∨ p.scheme = "https".toList) :
    (urlsplitCore (urlunsplit p) d).scheme = p.scheme := by
  have hne : p.scheme ≠ [] := by rcases hp with h | h <;> rw [h] <;> decide
  obtain ⟨y, hy⟩ := urlunsplit_scheme_colon p hne
  rw [hy]
  exact urlsplitCore_scheme_colon p.scheme y d hp

/-! ## Characterisation of urljoin on well-formed pagination links -/

theorem extractScheme_eq_some {l sch rest : List Char}
    (h : extractScheme l = some (sch, rest)) :
    l = sch ++ ':' :: rest ∧ sch ≠ [] ∧ sch.all schemeChar = true := by
  unfold extractScheme at h
  cases hsp : splitOnFirst ':' l with
  | none => rw [hsp] at h; simp at h
  | some pr =>
    rw [hsp] at h
    obtain ⟨pre, r⟩ := pr
    simp only at h
    by_cases hv : pre ≠ [] ∧ pre.all schemeChar
    · rw [if_pos hv] at h
      simp only [Option.some.injEq, Prod.mk.injEq] at h
      obtain ⟨rfl, rfl⟩ := h
      obtain ⟨h1, _⟩ := splitOnFirst_eq_some hsp
      exact ⟨h1, hv.1, hv.2⟩
    · rw [if_neg hv] at h; simp at h

/-- Re-assembly of `scheme://netloc{path}` when the path is empty or rooted. -/
theorem urlunsplit_netloc (sch n p : List Char) (hsne : sch ≠ []) (hn : n ≠ [])
    (hps : p = [] ∨ p.take 1 = ['/']) :
    urlunsplit ⟨sch, n, p, [], []⟩ = sch ++ ':' :: '/' :: '/' :: (n ++ p) := by
  have hinner : ¬(p ≠ [] ∧ p.take 1 ≠ ['/']) := by
    rcases hps with rfl | hps
    · simp
    · simp [hps]
  simp only [urlunsplit]
  rw [if_pos (Or.inl hn), if_neg hinner, if_pos hsne,
    if_neg (by simp : ¬(([] : List Char) ≠ [])),
    if_neg (by simp : ¬(([] : List Char) ≠ []))]
  simp

/-- A rooted path free of dot segments resolves to itself, whatever the base
path. -/
theorem resolvePath_rooted (bp r : List Char)
    (hdots : ∀ seg ∈ splitOnChar '/' ('/' :: r), seg ≠ ['.'] ∧ seg ≠ ['.', '.']) :
    resolvePath bp ('/' :: r) = '/' :: r := by
  have hsegne : splitOnChar '/' ('/' :: r) ≠ [] := splitOnCharAux_ne_nil '/' ('/' :: r) []
  have hlast := hdots _ (getLastD_mem_of_ne_nil [] hsegne)
  have hres : resolveSegs [] (splitOnChar '/' ('/' :: r)) = splitOnChar '/' ('/' :: r) := by
    simpa using resolveSegs_no_dots hdots []
  have hjoin : joinChar '/' (splitOnChar '/' ('/' :: r)) = '/' :: r := joinChar_splitOnChar _ _
  have hcond : ¬((splitOnChar '/' ('/' :: r)).getLastD [] = ['.'] ∨
      (splitOnChar '/' ('/' :: r)).getLastD [] = ['.', '.']) :=
    not_or.mpr ⟨hlast.1, hlast.2⟩
  have hc1 : List.take 1 ('/' :: r) = ['/'] := by simp
  simp only [resolvePath]
  rw [if_pos hc1, hres, if_neg hcond, hjoin,
    if_neg (List.cons_ne_nil '/' r)]

/-- Resolving a rooted relative link against `sch://host`: the link is joined
directly onto the scheme-and-host part. -/
theorem urljoinCore_rooted_rel (sch host r : List Char)
    (hsch : sch = "http".toList ∨ sch = "https".toList)
    (hhostne : host ≠ []) (hhost : ∀ c ∈ host, netlocChar c = true)
    (hnc : ∀ c ∈ ('/' :: r), c ≠ ':' ∧ c ≠ '?' ∧ c ≠ '#')
    (hr : r.take 1 ≠ ['/'])
    (hdots : ∀ seg ∈ splitOnChar '/' ('/' :: r), seg ≠ ['.'] ∧ seg ≠ ['.', '.']) :
    urljoinCore (sch ++ ':' :: '/' :: '/' :: host) ('/' :: r) =
      (sch ++ ':' :: '/' :: '/' :: host) ++ '/' :: r := by
  have hb := urlsplitCore_schemeHost sch host hsch hhost
  have hrel : usesRelative sch = true := by rcases hsch with rfl | rfl <;> decide
  have hnet : usesNetloc sch = true := by rcases hsch with rfl | rfl <;> decide
  have hsne : sch ≠ [] := by rcases hsch with rfl | rfl <;> decide
  have hu := urlsplitCore_rooted r sch hnc hr
  simp only [urljoinCore, hb, hu]
  rw [if_neg (by simp [hrel] : ¬(sch ≠ sch ∨ ¬usesRelative sch = true)),
    if_neg (by simp : ¬(usesNetloc sch = true ∧ ([] : List Char) ≠ [])),
    if_neg (List.cons_ne_nil '/' r),
    if_pos (⟨hnet, trivial⟩ : usesNetloc sch = true ∧ True),
    resolvePath_rooted [] r hdots,
    urlunsplit_netloc sch host ('/' :: r) hsne hhostne (Or.inr (by simp))]
  simp

/-- Resolving a well-formed absolute http(s) link: the link is returned as
given, whether or not its scheme matches the base's. -/
theorem urljoinCore_abs (sch host ul : List Char)
    (hsch : sch = "http".toList ∨ sch = "https".toList)
    (hhost : ∀ c ∈ host, netlocChar c = true)
    (schU rest : List Char)
    (hsp : extractScheme ul = some (schU, rest))
    (hU : schU = "http".toList ∨ schU = "https".toList)
    (h2 : rest.take 2 = ['/', '/'])
    (hnl : (rest.drop 2).takeWhile netlocChar ≠ [])
    (hp : ∀ c ∈ (rest.drop 2).dropWhile netlocChar, c ≠ '?' ∧ c ≠ '#') :
    urljoinCore (sch ++ ':' :: '/' :: '/' :: host) ul = ul := by
  have hb := urlsplitCore_schemeHost sch host hsch hhost
  have hlow : lowerChars schU = schU := by rcases hU with rfl | rfl <;> decide
  have hUne : schU ≠ [] := by rcases hU with rfl | rfl <;> decide
  have hq : '?' ∉ (rest.drop 2).dropWhile netlocChar := fun hm => (hp _ hm).1 rfl
  have hh : '#' ∉ (rest.drop 2).dropWhile netlocChar := fun hm => (hp _ hm).2 rfl
  have hpu : urlsplitCore ul sch =
      ⟨schU, (rest.drop 2).takeWhile netlocChar, (rest.drop 2).dropWhile netlocChar, [], []⟩ := by
    simp [urlsplitCore, hsp, hlow, h2, splitOnFirst_of_not_mem hq, splitOnFirst_of_not_mem hh]
  obtain ⟨hul, _, _⟩ := extractScheme_eq_some hsp
  by_cases hEq : schU = sch
  · subst hEq
    have hrelS : usesRelative schU = true := by rcases hU with rfl | rfl <;> decide
    have hnet : usesNetloc schU = true := by rcases hU with rfl | rfl <;> decide
    have hpslash : (rest.drop 2).dropWhile netlocChar = [] ∨
        ((rest.drop 2).dropWhile netlocChar).take 1 = ['/'] := by
      cases hdw : (rest.drop 2).dropWhile netlocChar with
      | nil => exact Or.inl rfl
      | cons c t =>
        have hcf : netlocChar c = false := dropWhile_head_false hdw
        have hcm : c ∈ (rest.drop 2).dropWhile netlocChar := by rw [hdw]; simp
        have hc1 := (hp c hcm).1
        have hc2 := (hp c hcm).2
        have hcs : c = '/' := by
          unfold netlocChar at hcf
          simp only [Bool.and_eq_false_iff, Bool.not_eq_false', beq_iff_eq] at hcf
          rcases hcf with (hc | hc) | hc
          · exact hc
          · exact absurd hc hc1
          · exact absurd hc hc2
        subst hcs
        exact Or.inr rfl
    have hrest : rest = '/' :: '/' ::
        ((rest.drop 2).takeWhile netlocChar ++ (rest.drop 2).dropWhile netlocChar) := by
      conv_lhs => rw [← List.take_append_drop 2 rest]
      rw [h2, List.takeWhile_append_dropWhile]
      rfl
    simp only [urljoinCore, hb, hpu]
    rw [if_neg (by simp [hrelS] : ¬(schU ≠ schU ∨ ¬usesRelative schU = true)),
      if_pos (⟨hnet, hnl⟩ :
        usesNetloc schU = true ∧ (rest.drop 2).takeWhile netlocChar ≠ []),
      urlunsplit_netloc schU _ _ hUne hnl hpslash]
    conv_rhs => rw [hul, hrest]
  · simp only [urljoinCore, hb, hpu]
    rw [if_pos (Or.inl hEq)]

/-! ## String-level statement of next-page resolution -/

theorem toList_append (s t : String) : (s ++ t).toList = s.toList ++ t.toList :=
  String.data_append s t

theorem string_mk_toList (s : String) : String.mk s.toList = s := rfl

theorem mk_append_mk (a b : List Char) : String.mk a ++ String.mk b = String.mk (a ++ b) := rfl

theorem mk_append (a : List Char) (s : String) :
    String.mk a ++ s = String.mk (a ++ s.toList) := rfl

theorem string_eq_empty_of_toList {s : String} (h : s.toList = []) : s = "" := by
  have h2 := congrArg String.mk h
  rw [string_mk_toList] at h2
  exact h2

theorem isPrefixOf_cons_false {a b : Char} {as bs : List Char} (h : a ≠ b) :
    (a :: as).isPrefixOf (b :: bs) = false := by
  simp [List.isPrefixOf, h]

/-- The scheme-and-host part of a URL, `scheme://netloc`. -/
def schemeHostOf (u : String) : String :=
  String.mk ((urlsplitCore u.toList []).scheme ++
    ':' :: '/' :: '/' :: (urlsplitCore u.toList []).netloc)

/-- The spec's description of next-page resolution, stated from its words: an
absolute link ("starts with an http or https scheme") is used as given, a
relative link is joined onto the instance URL's scheme-and-host part. -/
def specResolveNext (instance_url s : String) : String :=
  if startsWithStr s "http://" || startsWithStr s "https://" then s
  else schemeHostOf instance_url ++ s

/-- Well-formedness of the instance URL: `http(s)://host` with a non-empty
host free of `/`, `?`, `#` (and `:`). -/
def instanceUrlOk (instance_url : String) : Prop :=
  ∃ sch host, (sch = "http".toList ∨ sch = "https".toList) ∧ host ≠ [] ∧
    (∀ c ∈ host, netlocChar c = true) ∧
    instance_url.toList = sch ++ ':' :: '/' :: '/' :: host

/-- A well-formed host-relative link: rooted, not protocol-relative, free of
`:`/`?`/`#` and of `.`/`..` segments. -/
def relLinkOk (s : String) : Prop :=
  s.toList.take 1 = ['/'] ∧ s.toList.take 2 ≠ ['/', '/'] ∧
  (∀ c ∈ s.toList, c ≠ ':' ∧ c ≠ '?' ∧ c ≠ '#') ∧
  (∀ seg ∈ splitOnChar '/' s.toList, seg ≠ ['.'] ∧ seg ≠ ['.', '.'])

/-- A well-formed absolute http(s) link: scheme, non-empty netloc, and a path
free of `?`/`#`. -/
def absLinkOk (s : String) : Prop :=
  ∃ schU rest, extractScheme s.toList = some (schU, rest) ∧
    (schU = "http".toList ∨ schU = "https".toList) ∧
    rest.take 2 = ['/', '/'] ∧ (rest.drop 2).takeWhile netlocChar ≠ [] ∧
    ∀ c ∈ (rest.drop 2).dropWhile netlocChar, c ≠ '?' ∧ c ≠ '#'

/-- Running `urljoin` on a well-formed instance URL and a well-formed (relative or
absolute) link behaves exactly as the spec words it. -/
theorem urljoin_spec_resolve (instance_url s : String)
    (hinst : instanceUrlOk instance_url) (hlink : relLinkOk s ∨ absLinkOk s) :
    urljoin instance_url s = specResolveNext instance_url s ∧
    s ≠ "" ∧ urljoin instance_url s ≠ "" := by
  obtain ⟨sch, host, hsch, hhostne, hhost, hieq⟩ := hinst
  have hb := urlsplitCore_schemeHost sch host hsch hhost
  have hsne : sch ≠ [] := by rcases hsch with rfl | rfl <;> decide
  have hine : instance_url ≠ "" := by
    intro h
    rw [h] at hieq
    have h0 : ([] : List Char) = sch ++ ':' :: '/' :: '/' :: host := hieq
    rcases hsch with rfl | rfl <;> simp at h0
  have hse : s ≠ "" := by
    rcases hlink with hrel | habs
    · intro h
      rw [h] at hrel
      have h0 : (([] : List Char)).take 1 = ['/'] := hrel.1
      simp at h0
    · obtain ⟨schU, rest, hsp, _⟩ := habs
      intro h
      rw [h] at hsp
      have h0 : (none : Option (List Char × List Char)) = some (schU, rest) := hsp.symm.symm
      exact absurd h0.symm (by simp)
  have hmain : urljoin instance_url s = specResolveNext instance_url s := by
    rcases hlink with hrel | habs
    · obtain ⟨h1, h2, h3, h4⟩ := hrel
      obtain ⟨t, hst⟩ : ∃ t, s.toList = '/' :: t := by
        cases hs : s.toList with
        | nil => rw [hs] at h1; simp at h1
        | cons c t =>
          rw [hs] at h1
          simp at h1
          exact ⟨t, by rw [h1]⟩
      have hr' : t.take 1 ≠ ['/'] := by
        intro hq
        apply h2
        rw [hst, List.take_succ_cons, hq]
      have hnc : ∀ c ∈ ('/' :: t), c ≠ ':' ∧ c ≠ '?' ∧ c ≠ '#' := by rw [← hst]; exact h3
      have hdots : ∀ seg ∈ splitOnChar '/' ('/' :: t), seg ≠ ['.'] ∧ seg ≠ ['.', '.'] := by
        rw [← hst]; exact h4
      have hjc := urljoinCore_rooted_rel sch host t hsch hhostne hhost hnc hr' hdots
      have hsw1 : startsWithStr s "http://" = false := by
        rw [startsWithStr, hst]
        exact isPrefixOf_cons_false (by decide)
      have hsw2 : startsWithStr s "https://" = false := by
        rw [startsWithStr, hst]
        exact isPrefixOf_cons_false (by decide)
      simp only [specResolveNext, urljoin]
      rw [if_neg hine, if_neg hse, hieq, hst, hjc, hsw1, hsw2,
        if_neg (by decide : ¬((false || false) = true))]
      simp only [schemeHostOf, hieq, hb]
      rw [mk_append, hst]
    · obtain ⟨schU, rest, hsp, hU, h2, hnl, hp⟩ := habs
      have hjc := urljoinCore_abs sch host s.toList hsch hhost schU rest hsp hU h2 hnl hp
      obtain ⟨hul, _, _⟩ := extractScheme_eq_some hsp
      have hrest2 : rest = ['/', '/'] ++ rest.drop 2 := by
        conv_lhs => rw [← List.take_append_drop 2 rest, h2]
      have hsw : (startsWithStr s "http://" || startsWithStr s "https://") = true := by
        rcases hU with rfl | rfl
        · have heq : "http".toList ++ ':' :: (['/', '/'] ++ rest.drop 2) =
              "http://".toList ++ rest.drop 2 := rfl
          have : startsWithStr s "http://" = true := by
            rw [startsWithStr, hul, hrest2, heq]
            exact List.isPrefixOf_iff_prefix.mpr (List.prefix_append _ _)
          simp [this]
        · have heq : "https".toList ++ ':' :: (['/', '/'] ++ rest.drop 2) =
              "https://".toList ++ rest.drop 2 := rfl
          have : startsWithStr s "https://" = true := by
            rw [startsWithStr, hul, hrest2, heq]
            exact List.isPrefixOf_iff_prefix.mpr (List.prefix_append _ _)
          simp [this]
      simp only [specResolveNext, urljoin]
      rw [if_neg hine, if_neg hse, hieq, hjc, string_mk_toList, if_pos hsw]
  refine ⟨hmain, hse, ?_⟩
  rw [hmain]
  simp only [specResolveNext]
  split
  · exact hse
  · intro h
    have h2 := congrArg String.toList h
    rw [toList_append] at h2
    have h3 : (schemeHostOf instance_url).toList ++ s.toList = [] := h2
    exact hse (string_eq_empty_of_toList (List.append_eq_nil.mp h3).2)

/-- One loop iteration on a 200 page carrying a truthy string `nextPageUrl`:
the loop recurses at the urljoin-resolved URL and records the request. -/
theorem fetchLoop_step_next (server : String → HttpResponse) (instance_url endpoint_path : String)
    (n : Nat) (u : String) (acc : List Json) (lr : Option Json)
    (b : List (String × Json)) (l : List Json) (s : String)
    (hu : u ≠ "") (hs : server u = ⟨200, Json.obj b⟩)
    (hl : pyIterD (dictGet? b (determine_record_key endpoint_path b)) = some l)
    (hnx : dictGet? b "nextPageUrl" = some (Json.str s)) (hse : s ≠ "") :
    fetchLoop server instance_url endpoint_path true (Nat.succ n) (Json.str u) acc lr =
      ((fetchLoop server instance_url endpoint_path true n
          (Json.str (urljoin instance_url s)) (acc ++ l) (some (Json.obj b))).1,
        u :: (fetchLoop server instance_url endpoint_path true n
          (Json.str (urljoin instance_url s)) (acc ++ l) (some (Json.obj b))).2) := by
  have htu : jsonTruthy (Json.str u) = true := by simp [jsonTruthy, hu]
  have hts : jsonTruthy (Json.str s) = true := by simp [jsonTruthy, hse]
  simp [fetchLoop, htu, hs, hl, dictGet, hnx, hts]

/-- C6: when a 200 page supplies a (well-formed) `nextPageUrl` and all pages
are requested, the very next URL requested is `urljoin(instance_url, link)`,
which resolves exactly as the spec words it: a relative link is joined onto
the instance URL's scheme and host, an absolute http(s) link is used as
given. -/
theorem fetch_data_next_page_resolution (server : String → HttpResponse)
    (u instance_url endpoint_path : String) (b : List (String × Json)) (s : String)
    (fuel : Nat)
    (hu : u ≠ "") (hs : server u = ⟨200, Json.obj b⟩) (hg : goodPage endpoint_path b)
    (hnx : dictGet? b "nextPageUrl" = some (Json.str s))
    (hinst : instanceUrlOk instance_url)
    (hlink : relLinkOk s ∨ absLinkOk s) :
    (fetch_data server u instance_url endpoint_path true (fuel + 2)).2.take 2 =
      [u, urljoin instance_url s] ∧
    urljoin instance_url s = specResolveNext instance_url s := by
  obtain ⟨hspec, hse, hjne⟩ := urljoin_spec_resolve instance_url s hinst hlink
  obtain ⟨l, hl⟩ := hg
  have htu : jsonTruthy (Json.str u) = true := by simp [jsonTruthy, hu]
  have hts : jsonTruthy (Json.str s) = true := by simp [jsonTruthy, hse]
  refine ⟨?_, hspec⟩
  obtain ⟨t, ht⟩ := fetchLoop_trace_head server instance_url endpoint_path true fuel
    (urljoin instance_url s) l (some (Json.obj b)) hjne
  show (fetchLoop server instance_url endpoint_path true (Nat.succ (Nat.succ fuel))
      (Json.str u) [] none).2.take 2 = _
  rw [fetchLoop_step_next server instance_url endpoint_path (Nat.succ fuel) u [] none
    b l s hu hs hl hnx hse]
  simp only [List.nil_append]
  rw [ht]
  rfl

theorem fetch_data_next_page_resolution_witness :
    (fetch_data demoServer "https://h.example/api/items" "https://h.example" "/api/items"
        true 2).2.take 2 =
      ["https://h.example/api/items", urljoin "https://h.example" "/api/items2"] ∧
    urljoin "https://h.example" "/api/items2" =
      specResolveNext "https://h.example" "/api/items2" :=
  fetch_data_next_page_resolution demoServer "https://h.example/api/items" "https://h.example"
    "/api/items" pageOne "/api/items2" 0 (by decide) rfl ⟨[Json.str "a", Json.str "b"], rfl⟩ rfl
    ⟨"https".toList, "h.example".toList, Or.inr rfl, by decide, by decide, rfl⟩
    (Or.inl ⟨by decide, by decide, by decide, by decide⟩)

/-! ## Scheme preservation (claim C10) -/

theorem toList_mk (l : List Char) : (String.mk l).toList = l := rfl

/-- Joining a scheme-less URL onto an http(s) base keeps the base's scheme. -/
theorem urljoinCore_keeps_scheme (bl ul : List Char)
    (hb : (urlsplitCore bl []).scheme = "http".toList ∨
          (urlsplitCore bl []).scheme = "https".toList)
    (hep : extractScheme ul = none) :
    (urlsplitCore (urljoinCore bl ul) []).scheme = (urlsplitCore bl []).scheme := by
  have hu : (urlsplitCore ul (urlsplitCore bl []).scheme).scheme =
      (urlsplitCore bl []).scheme :=
    urlsplitCore_scheme_default ul _ hep
  have hrel : usesRelative (urlsplitCore bl []).scheme = true := by
    rcases hb with h | h <;> rw [h] <;> decide
  simp only [urljoinCore]
  rw [hu]
  rw [if_neg (by simp [hrel] :
    ¬((urlsplitCore bl []).scheme ≠ (urlsplitCore bl []).scheme ∨
      ¬usesRelative (urlsplitCore bl []).scheme = true))]
  split
  · exact urlsplit_unsplit_scheme _ _ hb
  · split
    · exact urlsplit_unsplit_scheme _ _ hb
    · exact urlsplit_unsplit_scheme _ _ hb

theorem normalize_prefix_http (raw : String) :
    startsWithStr (normalize_instance_url raw) "http://" = true ∨
    startsWithStr (normalize_instance_url raw) "https://" = true := by
  by_cases h : (startsWithStr (pyStrip raw) "http://" ||
      startsWithStr (pyStrip raw) "https://") = true
  · simp only [normalize_instance_url]
    rw [if_pos h]
    exact (Bool.or_eq_true _ _).mp h
  · simp only [normalize_instance_url]
    rw [if_neg h]
    right
    rw [startsWithStr, toList_append]
    exact List.isPrefixOf_iff_prefix.mpr (List.prefix_append _ _)

theorem urlsplitCore_scheme_of_http_prefix (b : String)
    (h : startsWithStr b "http://" = true ∨ startsWithStr b "https://" = true) :
    (urlsplitCore b.toList []).scheme = "http".toList ∨
    (urlsplitCore b.toList []).scheme = "https".toList := by
  rcases h with h | h
  · left
    obtain ⟨tl, htl⟩ := List.isPrefixOf_iff_prefix.mp h
    rw [← htl]
    have heq : "http://".toList ++ tl = "http".toList ++ ':' :: ('/' :: '/' :: tl) := rfl
    rw [heq]
    exact urlsplitCore_scheme_colon _ _ _ (Or.inl rfl)
  · right
    obtain ⟨tl, htl⟩ := List.isPrefixOf_iff_prefix.mp h
    rw [← htl]
    have heq : "https://".toList ++ tl = "https".toList ++ ':' :: ('/' :: '/' :: tl) := rfl
    rw [heq]
    exact urlsplitCore_scheme_colon _ _ _ (Or.inr rfl)

theorem startsWith_ne_empty {b p : String} (h : startsWithStr b p = true) (hp : p ≠ "") :
    b ≠ "" := by
  intro hb
  rw [hb] at h
  obtain ⟨tl, htl⟩ := List.isPrefixOf_iff_prefix.mp h
  have h0 : p.toList ++ tl = [] := htl
  exact hp (string_eq_empty_of_toList (List.append_eq_nil.mp h0).1)

/-- C10 (amended): `main` strips the loaded instance URL and prefixes
`https://` when no http(s) prefix is present, so the normalised instance URL
always starts with `http://` or `https://`; and for every endpoint path that
does not itself carry a URL scheme, the request URL formed by
`urljoin(instance_url, endpoint_path)` has scheme `http` or `https`. -/
theorem main_full_url_scheme (raw endpoint_path : String) :
    (startsWithStr (normalize_instance_url raw) "http://" = true ∨
     startsWithStr (normalize_instance_url raw) "https://" = true) ∧
    (extractScheme endpoint_path.toList = none →
      urlScheme (main_full_url raw endpoint_path) = "http" ∨
      urlScheme (main_full_url raw endpoint_path) = "https") := by
  have hpre := normalize_prefix_http raw
  refine ⟨hpre, fun hep => ?_⟩
  have hbs := urlsplitCore_scheme_of_http_prefix (normalize_instance_url raw) hpre
  have hbne : normalize_instance_url raw ≠ "" := by
    rcases hpre with h | h
    · exact startsWith_ne_empty h (by decide)
    · exact startsWith_ne_empty h (by decide)
  simp only [main_full_url, urljoin]
  by_cases hee : endpoint_path = ""
  · rw [if_neg hbne, if_pos hee]
    rcases hbs with h | h
    · left
      simp only [urlScheme]
      rw [h]
      exact string_mk_toList "http"
    · right
      simp only [urlScheme]
      rw [h]
      exact string_mk_toList "https"
  · rw [if_neg hbne, if_neg hee]
    have hkeep := urljoinCore_keeps_scheme (normalize_instance_url raw).toList
      endpoint_path.toList hbs hep
    rcases hbs with h | h
    · left
      simp only [urlScheme, toList_mk]
      rw [hkeep, h]
      exact string_mk_toList "http"
    · right
      simp only [urlScheme, toList_mk]
      rw [hkeep, h]
      exact string_mk_toList "https"

theorem main_full_url_scheme_witness :
    (startsWithStr (normalize_instance_url "  myorg.example ") "http://" = true ∨
     startsWithStr (normalize_instance_url "  myorg.example ") "https://" = true) ∧
    (urlScheme (main_full_url "  myorg.example " "/services/data/v60.0/wave/recipes") = "http" ∨
     urlScheme (main_full_url "  myorg.example " "/services/data/v60.0/wave/recipes") = "https") :=
  ⟨(main_full_url_scheme "  myorg.example " "/services/data/v60.0/wave/recipes").1,
   (main_full_url_scheme "  myorg.example " "/services/data/v60.0/wave/recipes").2 rfl⟩

/-- C10, counterexample to the claim as stated: with the credentials file
supplying `myorg.example` (so the normalised instance URL is
`https://myorg.example`), an endpoint path that carries a foreign scheme is
returned as given by `urljoin`, so the request URL does not have an http or
https scheme. -/
theorem main_full_url_scheme_counterexample :
    normalize_instance_url " myorg.example " = "https://myorg.example" ∧
    main_full_url " myorg.example " "ftp://evil.example/x" = "ftp://evil.example/x" ∧
    urlScheme (main_full_url " myorg.example " "ftp://evil.example/x") = "ftp" ∧
    startsWithStr (main_full_url " myorg.example " "ftp://evil.example/x") "http://" = false ∧
    startsWithStr (main_full_url " myorg.example " "ftp://evil.example/x") "https://" = false :=
  ⟨by decide, by decide, by decide, by decide, by decide⟩
